import Mathlib

/-!
Verification development for the MuZero training module
(`src/muzero/training/training.py`).

The Python module is shallowly embedded below.  Conventions:

* machine floats are modelled as exact rationals (`ℚ`); the one claim that
  is genuinely about IEEE non-finite values is settled over a small
  explicit float-value model (`FV`) that adds `+inf`, `-inf` and `nan`;
* TensorFlow vectors are `List ℚ`, matrices are `List (List ℚ)`;
* the external collaborators (the network's `initial_model` and
  `recurrent_model`, the per-row `softmax_cross_entropy_with_logits`
  primitive, `np.sqrt`, and the per-sample action-conditioning pipeline)
  are parameters of the loss builder: the module under verification only
  ever applies them, batched, to per-sample data;
* stateful code (`network.training_steps`, the optimizer, the storage
  calls of `train_network`) is embedded as explicit state passing plus an
  event trace.
-/

/-! ### Gradient scaler (training.py lines 30-32)

`tf.stop_gradient` is the forward identity; the backward pass is outside a
forward-value embedding, so `stop_gradient` is embedded by its forward
semantics. -/

/-- Forward semantics of `tf.stop_gradient`: the value is unchanged. -/
def stop_gradient (x : ℚ) : ℚ := x

/-- `scale_gradient(tensor, scale)` from training.py line 32, applied to one
tensor element: `(1. - scale) * tf.stop_gradient(tensor) + scale * tensor`. -/
def scale_gradient (x : ℚ) (scale : ℚ) : ℚ :=
  (1 - scale) * stop_gradient x + scale * x

/-! ### Value distribution codec (training.py lines 118-131)

`loss_value` builds, for each scalar target `v`, a row of length
`value_support_size` from `s = np.sqrt(v)`:
`floor_value = clip(floor(s), 0, support_size - 2)`, `rest = s - floor_value`,
row`[floor_value] = 1 - rest`, row`[floor_value + 1] = rest`, all other
entries `0`.  Since `np.sqrt` is irrational-valued, the row construction is
parametrised by the already-computed square root `s` (a rational), keeping
the definition executable; `v = s^2` ranges over all non-negative targets as
`s` ranges over the non-negative rationals. -/

/-- `np.clip(np.floor(s), 0, support_size - 2)` as a natural number. -/
def clipFloor (s : ℚ) (supportSize : ℕ) : ℕ :=
  (max 0 (min ⌊s⌋ ((supportSize : ℤ) - 2))).toNat

/-- The target row written by `loss_value` (training.py lines 120-128) for a
sample whose `np.sqrt(target value)` equals `s`: zeros except `1 - rest` at
the clipped floor index and `rest` at its successor. -/
def valueTargetRow (s : ℚ) (supportSize : ℕ) : List ℚ :=
  List.ofFn fun i : Fin supportSize =>
    (if (i : ℕ) = clipFloor s supportSize then 1 - (s - clipFloor s supportSize) else 0) +
    (if (i : ℕ) = clipFloor s supportSize + 1 then s - clipFloor s supportSize else 0)

/-! ### Loss threshold clip (training.py lines 104-106)

`loss = loss * (threshold / max(loss, threshold))` with
`threshold = 9.9999999e25`. -/

/-- The literal `9.9999999e25` of training.py line 105 as an exact rational. -/
def thresholdQ : ℚ := 99999999 * 10 ^ 18

/-- The clip `loss * (threshold / max(loss, threshold))` of training.py
line 106, over exact rational values. -/
def clipQ (loss : ℚ) : ℚ := loss * (thresholdQ / max loss thresholdQ)

/-! ### Float-value model for the non-finite loss guard
(training.py lines 104-112)

Finiteness is a phenomenon of machine floats, so the post-processing of the
total loss (threshold clip, `tf.math.is_nan` warning, return) is also
embedded over a four-constructor float-value model carrying exact finite
values plus `+inf`, `-inf`, `nan`, with IEEE-754 semantics for the three
operations the code performs (`>` as used by Python's `max`, division,
multiplication). -/

/-- A machine-float value: an exact finite rational, `+inf`, `-inf` or
`nan` (signed zeros are not distinguished; none of the operations below
depend on the sign of zero on the inputs the guard can see). -/
inductive FV where
  | fin (q : ℚ)
  | posInf
  | negInf
  | nan
deriving DecidableEq, Repr

/-- IEEE `>` on float values: any comparison involving `nan` is `false`. -/
def FV.gtB : FV → FV → Bool
  | .fin a, .fin b => a > b
  | .fin _, .posInf => false
  | .fin _, .negInf => true
  | .posInf, .fin _ => true
  | .posInf, .negInf => true
  | .negInf, _ => false
  | .posInf, .posInf => false
  | _, .nan => false
  | .nan, _ => false

/-- Python's two-argument `max(a, b)`: keeps `a` unless `b > a`. -/
def pymax (a b : FV) : FV := if FV.gtB b a then b else a

/-- IEEE multiplication on float values. -/
def FV.mul : FV → FV → FV
  | .fin a, .fin b => .fin (a * b)
  | .fin a, .posInf => if a > 0 then .posInf else if a < 0 then .negInf else .nan
  | .fin a, .negInf => if a > 0 then .negInf else if a < 0 then .posInf else .nan
  | .posInf, .fin b => if b > 0 then .posInf else if b < 0 then .negInf else .nan
  | .negInf, .fin b => if b > 0 then .negInf else if b < 0 then .posInf else .nan
  | .posInf, .posInf => .posInf
  | .posInf, .negInf => .negInf
  | .negInf, .posInf => .negInf
  | .negInf, .negInf => .posInf
  | .nan, _ => .nan
  | _, .nan => .nan

/-- IEEE division on float values (division of a finite value by zero gives
a signed infinity by the sign of the numerator, `0/0` gives `nan`). -/
def FV.div : FV → FV → FV
  | .fin a, .fin b =>
      if b = 0 then (if a > 0 then .posInf else if a < 0 then .negInf else .nan)
      else .fin (a / b)
  | .fin _, .posInf => .fin 0
  | .fin _, .negInf => .fin 0
  | .posInf, .fin b => if b < 0 then .negInf else .posInf
  | .negInf, .fin b => if b < 0 then .posInf else .negInf
  | .posInf, .posInf => .nan
  | .posInf, .negInf => .nan
  | .negInf, .posInf => .nan
  | .negInf, .negInf => .nan
  | .nan, _ => .nan
  | _, .nan => .nan

/-- `nan` test (`tf.math.is_nan`, training.py line 108). -/
def FV.isNanB : FV → Bool
  | .nan => true
  | _ => false

/-- Finiteness test of a float value. -/
def FV.isFiniteB : FV → Bool
  | .fin _ => true
  | _ => false

/-- The threshold literal as a float value. -/
def thresholdFV : FV := .fin thresholdQ

/-- Training.py line 106 over the float-value model:
`loss * (threshold / max(loss, threshold))`. -/
def clipFV (loss : FV) : FV := loss.mul (thresholdFV.div (pymax loss thresholdFV))

/-- Training.py lines 104-112 over the float-value model: clip the raw
total loss, test the result with `tf.math.is_nan`, print the full per-step
loss trace when the test fires, and return the clipped loss unconditionally.
Result: (returned loss, warning printed, trace surfaced with the warning). -/
def postProcessFV (rawLoss : FV) (trace : List FV) : FV × Bool × List FV :=
  let clipped := clipFV rawLoss
  (clipped, clipped.isNanB, if clipped.isNanB then trace else [])

/-! ### Tensor primitives

The batched TensorFlow / NumPy operations the loss builder applies, over
lists of exact rationals. -/

/-- `tf.boolean_mask(xs, mask)` (also the comprehension
`[x for x, b in zip(xs, mask) if b]` of training.py line 85): keep the
entries whose mask bit is set.  TensorFlow additionally requires the mask
length to equal the batch dimension; that shape check is carried by
`booleanMaskChecked`. -/
def booleanMask {α : Type} (xs : List α) (mask : List Bool) : List α :=
  ((xs.zip mask).filter (fun p => p.2)).map (fun p => p.1)

/-- `tf.boolean_mask` with its shape requirement: `none` models the
TensorFlow shape error raised when the mask length differs from the batch
dimension. -/
def booleanMaskChecked {α : Type} (xs : List α) (mask : List Bool) : Option (List α) :=
  if xs.length = mask.length then some (booleanMask xs mask) else none

/-- `tf.math.reduce_mean` of a vector. -/
def meanQ (l : List ℚ) : ℚ := l.sum / l.length

/-- `tensorflow.python.keras.losses.MSE(y_true, y_pred)` on two vectors:
the mean over the last axis of the squared differences. -/
def mseQ (yTrue yPred : List ℚ) : ℚ :=
  meanQ (List.zipWith (fun a b => (b - a) ^ 2) yTrue yPred)

/-- `MSE` with the same-shape requirement its elementwise subtraction
imposes on the two batch vectors. -/
def tfMSEChecked (yTrue yPred : List ℚ) : Option ℚ :=
  if yTrue.length = yPred.length then some (mseQ yTrue yPred) else none

/-- Batched application of a per-row loss primitive `ce`
(`tf.nn.softmax_cross_entropy_with_logits` applied to matching rows of the
logits and labels matrices). -/
def ceRows (ce : List ℚ → List ℚ → ℚ) (logits labels : List (List ℚ)) : List ℚ :=
  List.zipWith ce logits labels

/-- `tf.nn.softmax_cross_entropy_with_logits` with its documented contract
that logits and labels have the same shape: `none` models the shape error
on mismatched batch dimensions. -/
def tfCEChecked (ce : List ℚ → List ℚ → ℚ) (logits labels : List (List ℚ)) :
    Option (List ℚ) :=
  if logits.length = labels.length then some (ceRows ce logits labels) else none

/-- The indices at which a boolean mask is true, in increasing order. -/
def trueIdx : List Bool → List ℕ
  | [] => []
  | b :: t => (if b then [0] else []) ++ (trueIdx t).map (· + 1)

/-- The number of samples a boolean mask selects. -/
def countTrue (m : List Bool) : ℕ := (m.filter (fun b => b)).length

/-- Python's 4-ary `zip`: truncates to the shortest input. -/
def zip4 {α β γ δ : Type} : List α → List β → List γ → List δ → List (α × β × γ × δ)
  | a :: as, b :: bs, c :: cs, d :: ds => (a, b, c, d) :: zip4 as bs cs ds
  | _, _, _, _ => []

/-- `tf.one_hot(actions, size)`: one row per action. -/
def oneHot (actions : List ℕ) (size : ℕ) : List (List ℚ) :=
  actions.map fun a => List.ofFn fun i : Fin size => if (i : ℕ) = a then 1 else 0

/-- Split a list into `count` consecutive chunks of size `k`. -/
def chunksOf {α : Type} (k : ℕ) : ℕ → List α → List (List α)
  | 0, _ => []
  | count + 1, l => l.take k :: chunksOf k count (l.drop k)

/-- `tf.reshape(m, (m.shape[0], 3, 3, 1))` (training.py line 69): flatten
the matrix and regroup its elements into shape `(rows, 3, 3, 1)`; `none`
models the TensorFlow error raised when the element counts differ. -/
def tfReshapeTo331 (m : List (List ℚ)) : Option (List (List (List (List ℚ)))) :=
  let n := m.length
  let flat := m.flatten
  if flat.length = n * 9 then
    some ((chunksOf 9 n flat).map fun row => (chunksOf 3 3 row).map fun tri => tri.map fun x => [x])
  else none

/-! ### The sampled batch and the network collaborator (training.py §data) -/

/-- One sampled batch, as unpacked on training.py line 36:
`image_batch, targets_init_batch, targets_time_batch, actions_time_batch,
mask_time_batch, dynamic_mask_time_batch`.  A per-sample target tuple is
`(target_value, target_reward, target_policy)` with the empty list standing
for an absent policy target. -/
structure MZBatch where
  imageBatch : List (List ℚ)
  targetsInit : List (ℚ × ℚ × List ℚ)
  targetsTime : List (List (ℚ × ℚ × List ℚ))
  actionsTime : List (List ℕ)
  maskTime : List (List Bool)
  dynamicMaskTime : List (List Bool)

/-- The network collaborator (`BaseNetwork`), embedded per sample: batched
`initial_model` and `recurrent_model` apply these functions to each row of
their input.  `initF` maps an observation to (representation row, value
logits, policy logits); `recurF` maps a conditioned representation row to
(next representation row, reward, value logits, policy logits). -/
structure NetworkModel where
  valueSupportSize : ℕ
  actionSize : ℕ
  initF : List ℚ → List ℚ × List ℚ × List ℚ
  recurF : List ℚ → List ℚ × ℚ × List ℚ × List ℚ

/-! ### The unrolled loss builder (training.py lines 34-112)

Parameters: `ce` is the per-row `softmax_cross_entropy_with_logits`
primitive, `sqrtQ` the value of `np.sqrt` on the scalar targets, `condF`
the per-sample action-conditioning pipeline of lines 63-76 (one-hot encode,
reshape, pad, concatenate with the representation row; its shape analysis
is carried separately by `oneHot`/`tfReshapeTo331`). -/

/-- `loss_value(target_value_batch, value_batch, value_support_size)`
(training.py lines 118-131): encode each scalar target through
`valueTargetRow` of its square root and take the per-row cross-entropy
against the predicted value logits. -/
def lossValueQ (ce : List ℚ → List ℚ → ℚ) (sqrtQ : ℚ → ℚ)
    (targetValues : List ℚ) (valueLogits : List (List ℚ)) (supportSize : ℕ) : List ℚ :=
  ceRows ce valueLogits (targetValues.map fun v => valueTargetRow (sqrtQ v) supportSize)

/-- The initial step of the loss builder (training.py lines 39-52): run the
per-sample `initial_model` over the observation batch, keep the policy rows
whose target is non-empty, and compute the two initial loss terms.
Returns (representation batch, initial value loss, initial policy loss). -/
def initialPhase (ce : List ℚ → List ℚ → ℚ) (sqrtQ : ℚ → ℚ) (net : NetworkModel)
    (images : List (List ℚ)) (targetsInit : List (ℚ × ℚ × List ℚ)) :
    List (List ℚ) × ℚ × ℚ :=
  let outs := images.map net.initF
  let rep := outs.map (fun o => o.1)
  let values := outs.map (fun o => o.2.1)
  let policies := outs.map (fun o => o.2.2)
  let targetValues := targetsInit.map (fun t => t.1)
  let targetPolicies := targetsInit.map (fun t => t.2.2)
  let maskPolicy := targetPolicies.map (fun l => !l.isEmpty)
  let targetPoliciesF := targetPolicies.filter (fun l => !l.isEmpty)
  let policiesM := booleanMask policies maskPolicy
  (rep,
   meanQ (lossValueQ ce sqrtQ targetValues values net.valueSupportSize),
   meanQ (ceRows ce policiesM targetPoliciesF))

/-- One step of the data consumed by the recurrent loop:
`(actions_batch, targets_batch, mask, dynamic_mask)`. -/
def MZStep : Type := List ℕ × List (ℚ × ℚ × List ℚ) × List Bool × List Bool

/-- The body of one recurrent unroll step (training.py lines 55-99), given
the carried representation batch: dynamic-mask the representation, mask the
value/reward targets, condition the representation on the one-hot actions,
run the per-sample `recurrent_model`, restrict policies to masked samples
with a non-empty policy target, and form the combined step loss.  Returns
`(scale_gradient(step loss, 1/K), next representation batch)`, the next
representation already gradient-halved (line 102). -/
def stepOut (ce : List ℚ → List ℚ → ℚ) (sqrtQ : ℚ → ℚ)
    (condF : List ℚ → ℕ → List ℚ) (net : NetworkModel) (K : ℕ)
    (rep : List (List ℚ)) (sd : MZStep) : ℚ × List (List ℚ) :=
  let actions := sd.1
  let targets := sd.2.1
  let mask := sd.2.2.1
  let dyn := sd.2.2.2
  let targetValues := targets.map (fun t => t.1)
  let targetRewards := targets.map (fun t => t.2.1)
  let targetPolicies := targets.map (fun t => t.2.2)
  let repM := booleanMask rep dyn
  let tv := booleanMask targetValues mask
  let tr := booleanMask targetRewards mask
  let conditioned := List.zipWith condF repM actions
  let outs := conditioned.map net.recurF
  let rep2 := outs.map (fun o => o.1)
  let rewards := outs.map (fun o => o.2.1)
  let values := outs.map (fun o => o.2.2.1)
  let policies := outs.map (fun o => o.2.2.2)
  let tp := booleanMask targetPolicies mask
  let maskPolicy := tp.map (fun l => !l.isEmpty)
  let tpF := tp.filter (fun l => !l.isEmpty)
  let policiesM := booleanMask policies maskPolicy
  let l := meanQ (lossValueQ ce sqrtQ tv values net.valueSupportSize) +
           mseQ tr rewards +
           meanQ (ceRows ce policiesM tpF)
  (scale_gradient l (1 / (K : ℚ)),
   rep2.map fun r => r.map fun x => scale_gradient x (1 / 2))

/-- The loop state of the loss builder: carried representation batch,
running total loss, and the diagnostic loss trace (`losses`). -/
structure UnrollState where
  rep : List (List ℚ)
  loss : ℚ
  trace : List ℚ

/-- One iteration of the recurrent loop (training.py lines 55-102): add the
gradient-scaled step loss to the running total, append it to the trace, and
carry the next representation. -/
def unrollStep (ce : List ℚ → List ℚ → ℚ) (sqrtQ : ℚ → ℚ)
    (condF : List ℚ → ℕ → List ℚ) (net : NetworkModel) (K : ℕ)
    (st : UnrollState) (sd : MZStep) : UnrollState :=
  let out := stepOut ce sqrtQ condF net K st.rep sd
  { rep := out.2, loss := st.loss + out.1, trace := st.trace ++ [out.1] }

/-- The `loss()` closure of `update_weights` (training.py lines 34-112):
initial step (`loss = mean value loss`, `losses = [copy(loss)]`,
`loss += mean policy loss`, `losses.append(loss)`), recurrent loop over the
zipped per-step data with `gradient_scale = 1 / len(actions_time_batch)`,
then the threshold clip of line 106.  Returns
(returned loss, diagnostic loss trace `losses`). -/
def lossBuilder (ce : List ℚ → List ℚ → ℚ) (sqrtQ : ℚ → ℚ)
    (condF : List ℚ → ℕ → List ℚ) (net : NetworkModel) (b : MZBatch) :
    ℚ × List ℚ :=
  let ini := initialPhase ce sqrtQ net b.imageBatch b.targetsInit
  let v0 := ini.2.1
  let p0 := ini.2.2
  let K := b.actionsTime.length
  let st0 : UnrollState := ⟨ini.1, v0 + p0, [v0, v0 + p0]⟩
  let st := (zip4 b.actionsTime b.targetsTime b.maskTime b.dynamicMaskTime).foldl
    (unrollStep ce sqrtQ condF net K) st0
  (clipQ st.loss, st.trace)

/-- The two initial trace entries, named for the claims: the initial value
loss term (`losses[0]`, training.py line 49). -/
def initValueLoss (ce : List ℚ → List ℚ → ℚ) (sqrtQ : ℚ → ℚ) (net : NetworkModel)
    (images : List (List ℚ)) (targetsInit : List (ℚ × ℚ × List ℚ)) : ℚ :=
  (initialPhase ce sqrtQ net images targetsInit).2.1

/-- The initial policy loss term (the summand added on training.py
lines 50-51; note the code appends the running total, not this term, as
`losses[1]`). -/
def initPolicyLoss (ce : List ℚ → List ℚ → ℚ) (sqrtQ : ℚ → ℚ) (net : NetworkModel)
    (images : List (List ℚ)) (targetsInit : List (ℚ × ℚ × List ℚ)) : ℚ :=
  (initialPhase ce sqrtQ net images targetsInit).2.2

/-- The sequence of recurrent-step trace entries, as a recursion over the
per-step data: each step contributes `scale_gradient(step loss, 1/K)` and
hands the next representation to the following step.  `lossBuilder`'s
`foldl` is proven below to append exactly this sequence to the trace. -/
def unrollTrace (ce : List ℚ → List ℚ → ℚ) (sqrtQ : ℚ → ℚ)
    (condF : List ℚ → ℕ → List ℚ) (net : NetworkModel) (K : ℕ)
    (rep : List (List ℚ)) : List MZStep → List ℚ
  | [] => []
  | sd :: rest =>
      (stepOut ce sqrtQ condF net K rep sd).1 ::
        unrollTrace ce sqrtQ condF net K (stepOut ce sqrtQ condF net K rep sd).2 rest

/-! ### Weight updater and training loop (training.py lines 14-26, 114-115) -/

/-- The mutable state `update_weights` acts on: the network's
`training_steps` counter and, for the optimizer collaborator, the number of
`optimizer.minimize` invocations performed so far. -/
structure TrainState where
  trainingSteps : ℕ
  optimizerSteps : ℕ
deriving DecidableEq, Repr

/-- The side effects of one `update_weights` call (training.py lines
114-115): exactly one `optimizer.minimize(loss, var_list)` invocation, then
`network.training_steps += 1`. -/
def updateWeightsState (st : TrainState) : TrainState :=
  { trainingSteps := st.trainingSteps + 1, optimizerSteps := st.optimizerSteps + 1 }

/-- The externally observable actions of `train_network` (training.py lines
14-26); progress reporting is cosmetic and not an event. -/
inductive TrainEvent where
  | sampleBatch (unrollSteps tdSteps : ℕ)
  | updateCall
  | saveNetwork (key : ℕ)
  | saveToDisk
deriving DecidableEq, Repr

/-- `train_network(config, storage, replay_buffer, epochs)` (training.py
lines 14-26): per epoch one `replay_buffer.sample_batch(num_unroll_steps,
td_steps)`, one `update_weights` (via `updateWeightsState`), one
`storage.save_network(network.training_steps, network)` keyed by the
just-incremented counter; after the loop a single
`storage.save_network_to_disk(network)`.  Returns the final state and the
event trace. -/
def trainNetwork (cfgUnroll cfgTd : ℕ) (st : TrainState) :
    ℕ → TrainState × List TrainEvent
  | 0 => (st, [TrainEvent.saveToDisk])
  | epochs + 1 =>
      let st1 := updateWeightsState st
      let rest := trainNetwork cfgUnroll cfgTd st1 epochs
      (rest.1,
       TrainEvent.sampleBatch cfgUnroll cfgTd :: TrainEvent.updateCall ::
         TrainEvent.saveNetwork st1.trainingSteps :: rest.2)

/-! ### Concrete fixtures used by counterexamples and witnesses -/

/-- A degenerate cross-entropy primitive that ignores both rows; with it the
builder's cross-entropy terms vanish and only the concretely embedded
reward mean-squared-error drives a step loss. -/
def ceZero : List ℚ → List ℚ → ℚ := fun _ _ => 0

/-- A cross-entropy stand-in returning the sum of the logits row. -/
def ceSumLogits : List ℚ → List ℚ → ℚ := fun l _ => l.sum

/-- A concrete square-root stand-in (its value is irrelevant to the
structural claims it is used for). -/
def sqId : ℚ → ℚ := fun v => v

/-- A concrete per-sample conditioning stand-in: keep the representation
row. -/
def condKeep : List ℚ → ℕ → List ℚ := fun r _ => r

/-- A concrete per-sample network: the initial model echoes the
observation; the recurrent model echoes the conditioned row and reports its
sum as the predicted reward. -/
def testNet : NetworkModel where
  valueSupportSize := 2
  actionSize := 9
  initF := fun o => (o, o, o)
  recurF := fun c => (c, c.sum, c, c)

/-! ### Helper lemmas -/

/-- A finite raw loss clips to the finite rational clip: the float-value
post-processing agrees with the exact-rational embedding on finite losses. -/
theorem clipFV_fin (q : ℚ) : clipFV (FV.fin q) = FV.fin (clipQ q) := by
  have ht : (0 : ℚ) < thresholdQ := by norm_num [thresholdQ]
  rcases lt_or_le q thresholdQ with h | h
  · have hmax : pymax (FV.fin q) thresholdFV = FV.fin thresholdQ := by
      simp [pymax, FV.gtB, thresholdFV, h]
    rw [clipFV, hmax]
    have : max q thresholdQ = thresholdQ := max_eq_right h.le
    simp [FV.div, FV.mul, thresholdFV, ne_of_gt ht, clipQ, this]
  · have hq : (0 : ℚ) < q := lt_of_lt_of_le ht h
    have hmax : pymax (FV.fin q) thresholdFV = FV.fin q := by
      simp [pymax, FV.gtB, thresholdFV, not_lt.mpr h]
    rw [clipFV, hmax]
    have : max q thresholdQ = q := max_eq_left h
    simp [FV.div, FV.mul, thresholdFV, ne_of_gt hq, clipQ, this]

/-! ### Claims C3, C4, C8: gradient scaler and loss post-processing -/

/-- C3: for every input value `x` and every scale `s`, the forward value of
`scale_gradient(x, s) = (1 - s) * stop_gradient(x) + s * x` equals `x`
exactly. -/
theorem spec_C3_scale_gradient_forward (x s : ℚ) : scale_gradient x s = x := by
  unfold scale_gradient stop_gradient; ring

/-- C4, counterexample: the claim asserts `0 <= clipped` for every raw total
loss `L`, but the clip `L * (threshold / max(L, threshold))` of training.py
line 106 is the identity on every `L` below the threshold, including
negative ones: at `L = -1` the clipped loss is `-1 < 0`. -/
theorem spec_C4_counterexample : clipQ (-1) = -1 ∧ clipQ (-1) < 0 := by
  have h : max (-1 : ℚ) thresholdQ = thresholdQ :=
    max_eq_right (by norm_num [thresholdQ])
  constructor
  · rw [clipQ, h, div_self (by norm_num [thresholdQ]), mul_one]
  · rw [clipQ, h, div_self (by norm_num [thresholdQ]), mul_one]; norm_num

/-- C4, amended: for every raw loss `L` the clipped loss
`L * (threshold / max(L, threshold))` satisfies `clipped <= threshold` and
`clipped == L` whenever `L < threshold`; the lower bound `0 <= clipped`
holds under the additional hypothesis `0 <= L` (which the original claim
omits and which `spec_C4_counterexample` shows is necessary). -/
theorem spec_C4_amended (L : ℚ) :
    clipQ L ≤ thresholdQ ∧ (L < thresholdQ → clipQ L = L) ∧
    (0 ≤ L → 0 ≤ clipQ L) := by
  have ht : (0 : ℚ) < thresholdQ := by norm_num [thresholdQ]
  rcases le_or_lt L thresholdQ with h | h
  · have hid : clipQ L = L := by
      rw [clipQ, max_eq_right h, div_self (ne_of_gt ht), mul_one]
    exact ⟨by rw [hid]; exact h, fun _ => hid, fun h0 => by rw [hid]; exact h0⟩
  · have hL : L ≠ 0 := ne_of_gt (lt_trans ht h)
    have hcap : clipQ L = thresholdQ := by
      rw [clipQ, max_eq_left h.le]
      field_simp
    exact ⟨le_of_eq hcap, fun hlt => absurd hlt (not_lt.mpr h.le),
      fun _ => hcap ▸ ht.le⟩

/-- C4 witness: at the concrete raw loss `3`, the hypotheses of
`spec_C4_amended` hold and the clip is the identity and non-negative. -/
theorem spec_C4_witness : (0 : ℚ) ≤ 3 ∧ clipQ 3 = 3 ∧ 0 ≤ clipQ 3 :=
  ⟨by norm_num, (spec_C4_amended 3).2.1 (by norm_num [thresholdQ]),
    (spec_C4_amended 3).2.2 (by norm_num)⟩

/-- C8, counterexample: the claim asserts that whenever the total loss is
non-finite after threshold clipping a warning is surfaced, but the guard on
training.py line 108 tests `tf.math.is_nan` only: a raw loss of `-inf`
clips to `-inf` (`max(-inf, threshold) = threshold`, so the clip multiplies
by `1.0`), which is non-finite yet not NaN, so no warning is printed even
though the non-finite loss is returned. -/
theorem spec_C8_counterexample :
    clipFV FV.negInf = FV.negInf ∧
    (clipFV FV.negInf).isFiniteB = false ∧
    (postProcessFV FV.negInf [FV.fin 1]).2.1 = false ∧
    (postProcessFV FV.negInf [FV.fin 1]).1 = FV.negInf := by
  refine ⟨?_, ?_, ?_, ?_⟩ <;>
    simp [clipFV, postProcessFV, pymax, FV.gtB, thresholdFV, FV.div, FV.mul,
      FV.isNanB, FV.isFiniteB, thresholdQ]

/-- C8, amended: the loss post-processing of training.py lines 104-112
surfaces the warning (with the full per-step loss trace) exactly when the
clipped loss is NaN, and returns the clipped loss unconditionally, so the
optimizer step is attempted with it; a `+inf` or NaN raw loss does trip the
guard (the clip maps `+inf` to NaN), while a `-inf` raw loss escapes it
(`spec_C8_counterexample`). -/
theorem spec_C8_amended (L : FV) (trace : List FV) :
    (postProcessFV L trace).1 = clipFV L ∧
    (postProcessFV L trace).2.1 = (clipFV L).isNanB ∧
    (postProcessFV L trace).2.2 = (if (clipFV L).isNanB then trace else []) ∧
    clipFV FV.posInf = FV.nan ∧ clipFV FV.nan = FV.nan := by
  refine ⟨rfl, rfl, rfl, ?_, ?_⟩ <;>
    simp [clipFV, pymax, FV.gtB, thresholdFV, FV.div, FV.mul, thresholdQ]

/-! ### Claims C6, C7: weight updater side effects and the training loop -/

/-- C6: one `update_weights` call performs exactly one optimizer step and
increments `network.training_steps` by exactly 1; after `N` calls both
counters have increased by exactly `N`. -/
theorem spec_C6_step_counter (st : TrainState) (N : ℕ) :
    (updateWeightsState st).trainingSteps = st.trainingSteps + 1 ∧
    (updateWeightsState st).optimizerSteps = st.optimizerSteps + 1 ∧
    (updateWeightsState^[N] st).trainingSteps = st.trainingSteps + N ∧
    (updateWeightsState^[N] st).optimizerSteps = st.optimizerSteps + N := by
  refine ⟨rfl, rfl, ?_, ?_⟩ <;>
  · induction N generalizing st with
    | zero => rfl
    | succ n ih =>
        rw [Function.iterate_succ_apply]
        simpa [updateWeightsState, Nat.add_assoc, Nat.add_comm 1 n] using ih (updateWeightsState st)

/-- The event trace of `train_network` in closed form: per epoch one batch
sample, one update call and one in-memory save keyed by the incremented
step counter, then a single durable flush. -/
theorem trainNetwork_events (u t : ℕ) (epochs : ℕ) :
    ∀ st : TrainState, (trainNetwork u t st epochs).2 =
      ((List.range epochs).map fun i =>
          [TrainEvent.sampleBatch u t, TrainEvent.updateCall,
           TrainEvent.saveNetwork (st.trainingSteps + i + 1)]).flatten
        ++ [TrainEvent.saveToDisk] := by
  induction epochs with
  | zero => intro st; simp [trainNetwork]
  | succ n ih =>
      intro st
      have hstep : (trainNetwork u t st (n + 1)).2 =
          TrainEvent.sampleBatch u t :: TrainEvent.updateCall ::
          TrainEvent.saveNetwork (st.trainingSteps + 1) ::
          (trainNetwork u t (updateWeightsState st) n).2 := rfl
      have hmap : List.map
            ((fun i => [TrainEvent.sampleBatch u t, TrainEvent.updateCall,
                TrainEvent.saveNetwork (st.trainingSteps + i + 1)]) ∘ Nat.succ)
            (List.range n) =
          List.map (fun i => [TrainEvent.sampleBatch u t, TrainEvent.updateCall,
              TrainEvent.saveNetwork ((updateWeightsState st).trainingSteps + i + 1)])
            (List.range n) := by
        apply List.map_congr_left
        intro a _
        simp only [Function.comp_apply, updateWeightsState, List.cons.injEq, and_true,
          true_and, TrainEvent.saveNetwork.injEq]
        omega
      rw [hstep, ih (updateWeightsState st), List.range_succ_eq_map, List.map_cons,
        List.flatten_cons, List.map_map, hmap]
      simp

/-- C7: for every `epochs >= 0`, `train_network` emits, in order, for each
epoch one `sample_batch`, one `update_weights` and one `save_network` keyed
by the network's current (just-incremented) step counter, followed by
exactly one `save_network_to_disk`; with `epochs = 0` the trace is the
durable flush alone. -/
theorem spec_C7_training_loop (u t : ℕ) (st : TrainState) (epochs : ℕ) :
    (trainNetwork u t st epochs).2 =
      ((List.range epochs).map fun i =>
          [TrainEvent.sampleBatch u t, TrainEvent.updateCall,
           TrainEvent.saveNetwork (st.trainingSteps + i + 1)]).flatten
        ++ [TrainEvent.saveToDisk] ∧
    (trainNetwork u t st epochs).2.count TrainEvent.saveToDisk = 1 ∧
    (trainNetwork u t st 0).2 = [TrainEvent.saveToDisk] ∧
    (trainNetwork u t st epochs).1.trainingSteps = st.trainingSteps + epochs := by
  refine ⟨trainNetwork_events u t epochs st, ?_, rfl, ?_⟩
  · induction epochs generalizing st with
    | zero => rfl
    | succ n ih => simpa [trainNetwork, List.count_cons] using ih (updateWeightsState st)
  · induction epochs generalizing st with
    | zero => rfl
    | succ n ih =>
        simpa [trainNetwork, updateWeightsState, Nat.add_assoc, Nat.add_comm 1 n]
          using ih (updateWeightsState st)

/-! ### Claim C2: codec target rows -/

/-- The clipped floor stays at most `support_size - 2`. -/
theorem clipFloor_le (s : ℚ) (S : ℕ) (hS : 2 ≤ S) : clipFloor s S ≤ S - 2 := by
  have h1 : min ⌊s⌋ ((S : ℤ) - 2) ≤ (S : ℤ) - 2 := min_le_right _ _
  have h3 : max 0 (min ⌊s⌋ ((S : ℤ) - 2)) ≤ (S : ℤ) - 2 := max_le (by omega) h1
  unfold clipFloor
  omega

/-- Entry `j` of a codec target row, for `j` in range. -/
theorem valueTargetRow_getD (s : ℚ) (S : ℕ) (j : ℕ) (hj : j < S) :
    (valueTargetRow s S).getD j 0 =
      (if j = clipFloor s S then 1 - (s - clipFloor s S) else 0) +
      (if j = clipFloor s S + 1 then s - clipFloor s S else 0) := by
  unfold valueTargetRow
  have hlen : j < (List.ofFn fun i : Fin S =>
      (if (i : ℕ) = clipFloor s S then 1 - (s - clipFloor s S) else 0) +
      (if (i : ℕ) = clipFloor s S + 1 then s - clipFloor s S else 0)).length := by
    simpa using hj
  rw [List.getD_eq_getElem _ _ hlen, List.getElem_ofFn]

/-- Summing a single-index indicator over `Fin S`. -/
theorem sum_ite_val (S : ℕ) (k : ℕ) (hk : k < S) (c : ℚ) :
    (∑ i : Fin S, if (i : ℕ) = k then c else 0) = c := by
  have hfun : (fun i : Fin S => if (i : ℕ) = k then c else 0) =
      (fun i : Fin S => if i = ⟨k, hk⟩ then c else 0) := by
    funext i
    simp [Fin.ext_iff]
  rw [hfun]
  simp

/-- C2, counterexample: the claim asserts that for every `v >= 0` and every
`support_size >= 2` the encoded row is a valid categorical distribution; at
`v = 4`, `support_size = 2` (`sqrt(v) = 2`, floor clipped from `2` to `0`,
`rest = 2`) the row is `[-1, 2]`: it still sums to `1` but has a negative
entry, so it is not a probability distribution. -/
theorem spec_C2_counterexample :
    valueTargetRow 2 2 = [-1, 2] ∧ (valueTargetRow 2 2).getD 0 0 < 0 := by
  have hfl : ⌊(2 : ℚ)⌋ = 2 := by norm_num
  have hcf : clipFloor 2 2 = 0 := by
    unfold clipFloor
    rw [hfl]
    omega
  have hrow : valueTargetRow 2 2 = [-1, 2] := by
    unfold valueTargetRow
    rw [hcf]
    simp [List.ofFn_succ]
    norm_num
  refine ⟨hrow, ?_⟩
  rw [hrow]
  decide

/-- C2, amended: for every non-negative square root `s = sqrt(v)` and every
`support_size >= 2`, the row built by `loss_value` has entry `1 - r` at the
clipped floor index `f`, entry `r` at `f + 1` (`r = s - f`), zeros
elsewhere, and sums to `1`; the validity statement of the original claim
(entries in `[0, 1]`, exactly two adjacent non-zero entries, or one when
`r = 0`) additionally requires `s < support_size - 1`, i.e.
`v < (support_size - 1)^2` — beyond that bound the clipping drives `r`
past `1` and the row leaves the probability simplex
(`spec_C2_counterexample`). -/
theorem spec_C2_amended (s : ℚ) (S : ℕ) (hS : 2 ≤ S) (hs : 0 ≤ s) :
    (valueTargetRow s S).length = S ∧
    (valueTargetRow s S).sum = 1 ∧
    (valueTargetRow s S).getD (clipFloor s S) 0 = 1 - (s - clipFloor s S) ∧
    (valueTargetRow s S).getD (clipFloor s S + 1) 0 = s - clipFloor s S ∧
    (∀ j, j < S → j ≠ clipFloor s S → j ≠ clipFloor s S + 1 →
      (valueTargetRow s S).getD j 0 = 0) ∧
    (s < (S : ℚ) - 1 →
      (0 ≤ s - (clipFloor s S : ℚ) ∧ s - (clipFloor s S : ℚ) < 1) ∧
      (∀ j, j < S → ((valueTargetRow s S).getD j 0 ≠ 0 ↔
        (j = clipFloor s S ∨ (j = clipFloor s S + 1 ∧ s - (clipFloor s S : ℚ) ≠ 0))))) := by
  have hf1 : clipFloor s S + 1 < S := by
    have := clipFloor_le s S hS
    omega
  have hf : clipFloor s S < S := by omega
  refine ⟨by simp [valueTargetRow], ?_, ?_, ?_, ?_, ?_⟩
  · unfold valueTargetRow
    rw [List.sum_ofFn, Finset.sum_add_distrib,
      sum_ite_val S (clipFloor s S) hf, sum_ite_val S (clipFloor s S + 1) hf1]
    ring
  · rw [valueTargetRow_getD s S _ hf]
    have hne : clipFloor s S ≠ clipFloor s S + 1 := by omega
    simp [hne]
  · rw [valueTargetRow_getD s S _ hf1]
    have hne : clipFloor s S + 1 ≠ clipFloor s S := by omega
    simp [hne]
  · intro j hj hne hne1
    rw [valueTargetRow_getD s S j hj]
    simp [hne, hne1]
  · intro hlt
    have hfloor0 : (0 : ℤ) ≤ ⌊s⌋ := Int.floor_nonneg.mpr hs
    have hfloor2 : ⌊s⌋ ≤ (S : ℤ) - 2 := by
      have h1 : (⌊s⌋ : ℚ) < (S : ℚ) - 1 := lt_of_le_of_lt (Int.floor_le s) hlt
      have h2 : ⌊s⌋ < (S : ℤ) - 1 := by exact_mod_cast h1
      omega
    have hclip : clipFloor s S = ⌊s⌋.toNat := by
      unfold clipFloor
      rw [min_eq_left hfloor2, max_eq_right hfloor0]
    have hcast : ((clipFloor s S : ℕ) : ℚ) = (⌊s⌋ : ℚ) := by
      rw [hclip]
      exact_mod_cast Int.toNat_of_nonneg hfloor0
    have hr0 : 0 ≤ s - (clipFloor s S : ℚ) := by
      rw [hcast]
      have := Int.floor_le s
      linarith
    have hr1 : s - (clipFloor s S : ℚ) < 1 := by
      rw [hcast]
      have := Int.lt_floor_add_one s
      linarith
    refine ⟨⟨hr0, hr1⟩, ?_⟩
    intro j hj
    rw [valueTargetRow_getD s S j hj]
    by_cases hjf : j = clipFloor s S
    · have hne1 : clipFloor s S ≠ clipFloor s S + 1 := by omega
      have hz : (1 : ℚ) - (s - (clipFloor s S : ℚ)) ≠ 0 := by linarith
      simp [hjf, hne1, hz]
    · by_cases hjf1 : j = clipFloor s S + 1
      · simp [hjf, hjf1]
      · simp [hjf, hjf1]

/-- C2 witness: at `s = 1/2` (`v = 1/4`) and `support_size = 3` the
hypotheses of `spec_C2_amended` hold; the row sums to `1` and the
fractional remainder lies in `[0, 1)`. -/
theorem spec_C2_witness :
    (2 ≤ 3) ∧ ((0 : ℚ) ≤ 1 / 2) ∧ ((1 / 2 : ℚ) < (3 : ℚ) - 1) ∧
    (valueTargetRow (1 / 2) 3).sum = 1 ∧
    (0 ≤ (1 / 2 : ℚ) - (clipFloor (1 / 2) 3 : ℚ) ∧
      (1 / 2 : ℚ) - (clipFloor (1 / 2) 3 : ℚ) < 1) :=
  ⟨by norm_num, by norm_num, by norm_num,
    (spec_C2_amended (1 / 2) 3 (by norm_num) (by norm_num)).2.1,
    ((spec_C2_amended (1 / 2) 3 (by norm_num) (by norm_num)).2.2.2.2.2
      (by norm_num)).1⟩

/-! ### Claim C10: the hard-coded action reshape -/

/-- The flattened one-hot action tensor has `n * size` elements. -/
theorem oneHot_flatten_length (actions : List ℕ) (size : ℕ) :
    ((oneHot actions size).flatten).length = actions.length * size := by
  induction actions with
  | nil => simp [oneHot]
  | cons a t ih =>
      show (List.ofFn _ ++ (oneHot t size).flatten).length = (t.length + 1) * size
      rw [List.length_append, List.length_ofFn, ih, Nat.succ_mul]
      omega

/-- One one-hot row per action. -/
theorem oneHot_length (actions : List ℕ) (size : ℕ) :
    (oneHot actions size).length = actions.length := by
  simp [oneHot]

/-- C10: for every non-empty action batch, the unconditional
`tf.reshape(tf.one_hot(actions, action_size), (n, 3, 3, 1))` of training.py
lines 68-69 is well-defined exactly when `action_size = 9`: the recurrent
loss step, and hence `update_weights`, is only defined for networks with
nine actions, a precondition the spec never states. -/
theorem spec_C10_reshape (actions : List ℕ) (size : ℕ) (h : actions ≠ []) :
    (tfReshapeTo331 (oneHot actions size)).isSome ↔ size = 9 := by
  have key : (tfReshapeTo331 (oneHot actions size)).isSome ↔
      actions.length * size = actions.length * 9 := by
    simp only [tfReshapeTo331, oneHot_flatten_length, oneHot_length]
    split <;> simp_all
  rw [key]
  have hpos : 0 < actions.length := List.length_pos.mpr h
  constructor
  · intro he
    exact Nat.eq_of_mul_eq_mul_left hpos he
  · intro he
    rw [he]

/-- C10 witness: a singleton action batch with `action_size = 9` reshapes
successfully. -/
theorem spec_C10_witness :
    ([0] ≠ ([] : List ℕ)) ∧ ((tfReshapeTo331 (oneHot [0] 9)).isSome ↔ 9 = 9) :=
  ⟨by simp, spec_C10_reshape [0] 9 (by simp)⟩

/-! ### Claim C9: prediction/target mask alignment in a recurrent step -/

/-- `tf.boolean_mask` on a cons cell. -/
theorem booleanMask_cons {α : Type} (x : α) (xs : List α) (b : Bool) (m : List Bool) :
    booleanMask (x :: xs) (b :: m) = (if b then [x] else []) ++ booleanMask xs m := by
  by_cases hb : b <;> simp [booleanMask, hb]

/-- Selected-sample count of a mask, on a cons cell. -/
theorem countTrue_cons (b : Bool) (m : List Bool) :
    countTrue (b :: m) = (if b then 1 else 0) + countTrue m := by
  by_cases hb : b <;> simp [countTrue, hb] <;> omega

/-- The list of selected indices has one entry per selected sample. -/
theorem length_trueIdx (m : List Bool) : (trueIdx m).length = countTrue m := by
  induction m with
  | nil => rfl
  | cons b t ih =>
      rw [countTrue_cons]
      by_cases hb : b <;> simp [trueIdx, hb, ih] <;> omega

/-- `tf.boolean_mask` keeps one entry per selected sample. -/
theorem length_booleanMask {α : Type} (xs : List α) (m : List Bool)
    (h : xs.length = m.length) : (booleanMask xs m).length = countTrue m := by
  induction m generalizing xs with
  | nil =>
      cases xs with
      | nil => rfl
      | cons _ _ => simp at h
  | cons b t ih =>
      cases xs with
      | nil => simp at h
      | cons x xs' =>
          rw [booleanMask_cons, countTrue_cons, List.length_append,
            ih xs' (by simpa using h)]
          by_cases hb : b <;> simp [hb]

/-- `tf.boolean_mask` gathers exactly the entries at the mask's selected
indices, in order. -/
theorem booleanMask_eq_map_trueIdx {α : Type} (xs : List α) (m : List Bool) (d : α)
    (h : xs.length = m.length) :
    booleanMask xs m = (trueIdx m).map (fun i => xs.getD i d) := by
  induction m generalizing xs with
  | nil =>
      cases xs with
      | nil => rfl
      | cons _ _ => simp at h
  | cons b t ih =>
      cases xs with
      | nil => simp at h
      | cons x xs' =>
          rw [booleanMask_cons, ih xs' (by simpa using h)]
          by_cases hb : b <;>
            simp [hb, trueIdx, List.map_map, Function.comp]

/-- Incrementing every selected index is injective. -/
theorem map_add_one_inj {l₁ l₂ : List ℕ}
    (h : l₁.map (· + 1) = l₂.map (· + 1)) : l₁ = l₂ := by
  have hid : ∀ l : List ℕ, (l.map (· + 1)).map (fun x => x - 1) = l := by
    intro l
    have hcomp : ((fun x => x - 1) ∘ fun x : ℕ => x + 1) = id := funext fun x => by simp
    rw [List.map_map, hcomp, List.map_id]
  have := congrArg (List.map fun x => x - 1) h
  rwa [hid, hid] at this

/-- Equal-length masks with the same selected-index list are equal. -/
theorem trueIdx_inj : ∀ {m₁ m₂ : List Bool}, m₁.length = m₂.length →
    trueIdx m₁ = trueIdx m₂ → m₁ = m₂ := by
  intro m₁
  induction m₁ with
  | nil =>
      intro m₂ h _
      cases m₂ with
      | nil => rfl
      | cons _ _ => simp at h
  | cons b t ih =>
      intro m₂ h he
      cases m₂ with
      | nil => simp at h
      | cons b₂ t₂ =>
          have hlen : t.length = t₂.length := by simpa using h
          cases b <;> cases b₂ <;> simp [trueIdx] at he ⊢
          · exact ih hlen (map_add_one_inj he)
          · cases h2 : trueIdx t with
            | nil => rw [h2] at he; simp at he
            | cons i is => rw [h2] at he; simp at he
          · cases h2 : trueIdx t₂ with
            | nil => rw [h2] at he; simp at he
            | cons i is => rw [h2] at he; simp at he
          · exact ih hlen (map_add_one_inj he)

/-- C9: in a recurrent unroll step the predictions are restricted by the
dynamic mask while the targets are restricted by the target mask; the value
cross-entropy (and likewise the reward MSE) is shape-correct exactly when
the two masks select the same number of samples, the `j`-th
prediction/target pair gathered is (prediction of the `j`-th
dynamically-selected sample, target of the `j`-th mask-selected sample),
and those gathered index lists agree at every position exactly when the two
masks are equal. -/
theorem spec_C9_mask_alignment (ce : List ℚ → List ℚ → ℚ)
    (preds targets : List (List ℚ)) (rewards targetRewards : List ℚ)
    (mask dyn : List Bool)
    (hp : preds.length = dyn.length) (ht : targets.length = mask.length)
    (hr : rewards.length = countTrue dyn) (htr : targetRewards.length = mask.length)
    (hlen : mask.length = dyn.length) :
    ((tfCEChecked ce (booleanMask preds dyn) (booleanMask targets mask)).isSome ↔
      countTrue dyn = countTrue mask) ∧
    ((tfMSEChecked (booleanMask targetRewards mask) rewards).isSome ↔
      countTrue mask = countTrue dyn) ∧
    booleanMask preds dyn = (trueIdx dyn).map (fun i => preds.getD i []) ∧
    booleanMask targets mask = (trueIdx mask).map (fun i => targets.getD i []) ∧
    (trueIdx dyn = trueIdx mask ↔ dyn = mask) := by
  refine ⟨?_, ?_, booleanMask_eq_map_trueIdx preds dyn [] hp,
    booleanMask_eq_map_trueIdx targets mask [] ht, ?_⟩
  · rw [tfCEChecked, length_booleanMask preds dyn hp, length_booleanMask targets mask ht]
    split <;> simp_all
  · rw [tfMSEChecked, length_booleanMask targetRewards mask htr, hr]
    split <;> simp_all
  · constructor
    · intro he
      exact trueIdx_inj (hlen.symm ▸ rfl) he
    · intro he
      rw [he]

/-- C9 witness: a two-sample step whose target mask selects sample 0 but
whose dynamic mask selects sample 1: counts agree so both losses are
shape-correct, yet the index lists differ, matching masks being unequal. -/
theorem spec_C9_witness :
    ((tfCEChecked ceZero (booleanMask [[(1 : ℚ)], [2]] [false, true])
        (booleanMask [[(3 : ℚ)], [4]] [true, false])).isSome ↔
      countTrue [false, true] = countTrue [true, false]) ∧
    ((tfMSEChecked (booleanMask [(6 : ℚ), 7] [true, false]) [(5 : ℚ)]).isSome ↔
      countTrue [true, false] = countTrue [false, true]) ∧
    booleanMask [[(1 : ℚ)], [2]] [false, true] =
      (trueIdx [false, true]).map (fun i => [[(1 : ℚ)], [2]].getD i []) ∧
    booleanMask [[(3 : ℚ)], [4]] [true, false] =
      (trueIdx [true, false]).map (fun i => [[(3 : ℚ)], [4]].getD i []) ∧
    (trueIdx [false, true] = trueIdx [true, false] ↔
      ([false, true] : List Bool) = [true, false]) :=
  spec_C9_mask_alignment ceZero [[1], [2]] [[3], [4]] [5] [6, 7] [true, false]
    [false, true] (by simp) (by simp) (by simp [countTrue]) (by simp) (by simp)

/-! ### Claim C5: the loss trace -/

/-- The recurrent `foldl` of the loss builder appends exactly the
`unrollTrace` sequence to the running trace. -/
theorem foldl_unrollStep_trace (ce : List ℚ → List ℚ → ℚ) (sqrtQ : ℚ → ℚ)
    (condF : List ℚ → ℕ → List ℚ) (net : NetworkModel) (K : ℕ) :
    ∀ (l : List MZStep) (st : UnrollState),
      (l.foldl (unrollStep ce sqrtQ condF net K) st).trace =
        st.trace ++ unrollTrace ce sqrtQ condF net K st.rep l := by
  intro l
  induction l with
  | nil => intro st; simp [unrollTrace]
  | cons sd rest ih =>
      intro st
      rw [List.foldl_cons, ih]
      simp [unrollStep, unrollTrace, List.append_assoc]

/-- One trace entry per recurrent step. -/
theorem length_unrollTrace (ce : List ℚ → List ℚ → ℚ) (sqrtQ : ℚ → ℚ)
    (condF : List ℚ → ℕ → List ℚ) (net : NetworkModel) (K : ℕ) :
    ∀ (l : List MZStep) (rep : List (List ℚ)),
      (unrollTrace ce sqrtQ condF net K rep l).length = l.length := by
  intro l
  induction l with
  | nil => intro rep; rfl
  | cons sd rest ih => intro rep; simp [unrollTrace, ih]

/-- Python's 4-ary `zip` over equal-length lists pairs them all. -/
theorem zip4_length {α β γ δ : Type} :
    ∀ (a : List α) (b : List β) (c : List γ) (d : List δ),
      b.length = a.length → c.length = a.length → d.length = a.length →
      (zip4 a b c d).length = a.length := by
  intro a
  induction a with
  | nil => intro b c d _ _ _; simp [zip4]
  | cons x xs ih =>
      intro b c d hb hc hd
      cases b with
      | nil => simp at hb
      | cons y ys =>
          cases c with
          | nil => simp at hc
          | cons z zs =>
              cases d with
              | nil => simp at hd
              | cons w ws =>
                  simp only [zip4, List.length_cons]
                  rw [ih ys zs ws (by simpa using hb) (by simpa using hc) (by simpa using hd)]

/-- The concrete one-sample, zero-unroll batch driving the C5
counterexample and witness: the sample carries a policy target. -/
def cb5 : MZBatch where
  imageBatch := [[2]]
  targetsInit := [(0, 0, [1])]
  targetsTime := []
  actionsTime := []
  maskTime := []
  dynamicMaskTime := []

/-- C5, counterexample: the claim says the second trace entry is the
initial-step policy loss term, but training.py line 52 appends the running
total `loss` (initial value loss + initial policy loss).  On `cb5` (with
the sum-of-logits cross-entropy stand-in) the initial value loss is `2` and
the initial policy loss is `2`, so the trace is `[2, 4]`: its second entry
`4` is the cumulative initial loss, not the policy term `2`. -/
theorem spec_C5_counterexample :
    (lossBuilder ceSumLogits sqId condKeep testNet cb5).2 = [2, 4] ∧
    initPolicyLoss ceSumLogits sqId testNet cb5.imageBatch cb5.targetsInit = 2 ∧
    (lossBuilder ceSumLogits sqId condKeep testNet cb5).2.getD 1 0 ≠
      initPolicyLoss ceSumLogits sqId testNet cb5.imageBatch cb5.targetsInit := by
  with_unfolding_all decide

/-- C5, amended: for a batch with unroll depth `K` (all four per-step lists
of length `K`), the loss trace has length exactly `2 + K` and equals, in
order: the initial-step value loss, the cumulative initial loss (value plus
policy — not the policy term alone, see `spec_C5_counterexample`), then one
`scale_gradient(step loss, 1/K)` entry per unroll step. -/
theorem spec_C5_amended (ce : List ℚ → List ℚ → ℚ) (sqrtQ : ℚ → ℚ)
    (condF : List ℚ → ℕ → List ℚ) (net : NetworkModel) (b : MZBatch) (K : ℕ)
    (ha : b.actionsTime.length = K) (ht : b.targetsTime.length = K)
    (hm : b.maskTime.length = K) (hd : b.dynamicMaskTime.length = K) :
    (lossBuilder ce sqrtQ condF net b).2 =
      initValueLoss ce sqrtQ net b.imageBatch b.targetsInit ::
      (initValueLoss ce sqrtQ net b.imageBatch b.targetsInit +
        initPolicyLoss ce sqrtQ net b.imageBatch b.targetsInit) ::
      unrollTrace ce sqrtQ condF net K
        (initialPhase ce sqrtQ net b.imageBatch b.targetsInit).1
        (zip4 b.actionsTime b.targetsTime b.maskTime b.dynamicMaskTime) ∧
    (lossBuilder ce sqrtQ condF net b).2.length = 2 + K := by
  subst ha
  have htr : (lossBuilder ce sqrtQ condF net b).2 =
      initValueLoss ce sqrtQ net b.imageBatch b.targetsInit ::
      (initValueLoss ce sqrtQ net b.imageBatch b.targetsInit +
        initPolicyLoss ce sqrtQ net b.imageBatch b.targetsInit) ::
      unrollTrace ce sqrtQ condF net b.actionsTime.length
        (initialPhase ce sqrtQ net b.imageBatch b.targetsInit).1
        (zip4 b.actionsTime b.targetsTime b.maskTime b.dynamicMaskTime) := by
    simp only [lossBuilder, initValueLoss, initPolicyLoss]
    rw [foldl_unrollStep_trace]
    rfl
  refine ⟨htr, ?_⟩
  rw [htr]
  simp only [List.length_cons, length_unrollTrace]
  rw [zip4_length _ _ _ _ ht hm hd]
  omega

/-- C5 witness: on the zero-unroll batch `cb5` the trace has length
`2 + 0`. -/
theorem spec_C5_witness :
    cb5.actionsTime.length = 0 ∧
    (lossBuilder ceSumLogits sqId condKeep testNet cb5).2.length = 2 + 0 :=
  ⟨rfl, (spec_C5_amended ceSumLogits sqId condKeep testNet cb5 0 rfl rfl rfl rfl).2⟩

/-! ### Claim C1: per-sample contribution under all-false target masks -/

/-- Replacing an entry the mask rejects does not change the masked batch. -/
theorem booleanMask_set {α : Type} (xs : List α) (m : List Bool) (i : ℕ) (y : α)
    (hm : m.getD i true = false) :
    booleanMask (xs.set i y) m = booleanMask xs m := by
  induction m generalizing xs i with
  | nil => simp at hm
  | cons b t ih =>
      cases xs with
      | nil => simp
      | cons x xs' =>
          cases i with
          | zero =>
              have hb : b = false := by simpa using hm
              subst hb
              rw [List.set_cons_zero, booleanMask_cons, booleanMask_cons]
              simp
          | succ j =>
              have hm' : t.getD j true = false := by simpa using hm
              rw [List.set_cons_succ, booleanMask_cons, booleanMask_cons, ih xs' j hm']

/-- A recurrent step is blind to the data of a sample rejected by both its
target mask and (through the carried representation) its dynamic mask:
varying that sample's target tuple, and carrying a representation that
dynamic-masks to the same rows, leaves the step output unchanged. -/
theorem stepOut_set (ce : List ℚ → List ℚ → ℚ) (sqrtQ : ℚ → ℚ)
    (condF : List ℚ → ℕ → List ℚ) (net : NetworkModel) (K : ℕ)
    (rep' rep : List (List ℚ)) (a : List ℕ) (t : List (ℚ × ℚ × List ℚ))
    (m d : List Bool) (i : ℕ) (v : ℚ × ℚ × List ℚ)
    (hrep : booleanMask rep' d = booleanMask rep d)
    (hm : m.getD i true = false) :
    stepOut ce sqrtQ condF net K rep' (a, t.set i v, m, d) =
    stepOut ce sqrtQ condF net K rep (a, t, m, d) := by
  unfold stepOut
  dsimp only
  rw [List.map_set, List.map_set, List.map_set,
    booleanMask_set _ _ _ _ hm, booleanMask_set _ _ _ _ hm,
    booleanMask_set _ _ _ _ hm, hrep]

/-- Along a whole unroll, varying one sample's per-step target tuples is
invisible as long as every step's target mask rejects that sample. -/
theorem unrollTrace_setRel (ce : List ℚ → List ℚ → ℚ) (sqrtQ : ℚ → ℚ)
    (condF : List ℚ → ℕ → List ℚ) (net : NetworkModel) (K : ℕ) (i : ℕ) :
    ∀ (t₂ t₁ : List (List (ℚ × ℚ × List ℚ))),
      List.Forall₂ (fun x y => ∃ v, x = y.set i v) t₂ t₁ →
      ∀ (a : List (List ℕ)) (m : List (List Bool)) (d : List (List Bool)),
        (∀ mm ∈ m, mm.getD i true = false) →
        ∀ rep, unrollTrace ce sqrtQ condF net K rep (zip4 a t₂ m d) =
          unrollTrace ce sqrtQ condF net K rep (zip4 a t₁ m d) := by
  intro t₂ t₁ hf
  induction hf with
  | nil => intro a m d _ rep; rfl
  | cons hxy hrest ih =>
      intro a m d hm rep
      cases a with
      | nil => rfl
      | cons a₀ as =>
          cases m with
          | nil => rfl
          | cons m₀ ms =>
              cases d with
              | nil => rfl
              | cons d₀ ds =>
                  obtain ⟨v, hv⟩ := hxy
                  subst hv
                  simp only [zip4, unrollTrace]
                  rw [stepOut_set ce sqrtQ condF net K rep rep a₀ _ m₀ d₀ i v rfl
                      (hm m₀ (by simp)),
                    ih as ms ds (fun mm hmm => hm mm (List.mem_cons_of_mem _ hmm))]

/-- The recurrent part of the trace, when one sample's observation (hence
its initial representation row) and per-step targets are varied while every
target mask and the first dynamic mask reject it. -/
theorem unrollTrace_sampleVariation (ce : List ℚ → List ℚ → ℚ) (sqrtQ : ℚ → ℚ)
    (condF : List ℚ → ℕ → List ℚ) (net : NetworkModel) (K : ℕ) (i : ℕ)
    (x : List ℚ) (rep : List (List ℚ)) :
    ∀ (a : List (List ℕ)) (t₂ t₁ : List (List (ℚ × ℚ × List ℚ)))
      (m d : List (List Bool)),
      List.Forall₂ (fun p q => ∃ v, p = q.set i v) t₂ t₁ →
      (∀ mm ∈ m, mm.getD i true = false) →
      (∀ dd ∈ d.take 1, dd.getD i true = false) →
      unrollTrace ce sqrtQ condF net K (rep.set i x) (zip4 a t₂ m d) =
        unrollTrace ce sqrtQ condF net K rep (zip4 a t₁ m d) := by
  intro a t₂ t₁ m d hf hm hd
  cases a with
  | nil => rfl
  | cons a₀ as =>
      cases hf with
      | nil => rfl
      | cons hxy hrest =>
          cases m with
          | nil => rfl
          | cons m₀ ms =>
              cases d with
              | nil => rfl
              | cons d₀ ds =>
                  obtain ⟨v, hv⟩ := hxy
                  subst hv
                  simp only [zip4, unrollTrace]
                  rw [stepOut_set ce sqrtQ condF net K (rep.set i x) rep a₀ _ m₀ d₀ i v
                      (booleanMask_set rep d₀ i x (hd d₀ (by simp)))
                      (hm m₀ (by simp)),
                    unrollTrace_setRel ce sqrtQ condF net K i _ _ hrest as ms ds
                      (fun mm hmm => hm mm (List.mem_cons_of_mem _ hmm))]

/-- The recurrent tail of the loss trace in terms of `unrollTrace`. -/
theorem lossBuilder_drop2 (ce : List ℚ → List ℚ → ℚ) (sqrtQ : ℚ → ℚ)
    (condF : List ℚ → ℕ → List ℚ) (net : NetworkModel) (b : MZBatch) :
    (lossBuilder ce sqrtQ condF net b).2.drop 2 =
      unrollTrace ce sqrtQ condF net b.actionsTime.length
        (initialPhase ce sqrtQ net b.imageBatch b.targetsInit).1
        (zip4 b.actionsTime b.targetsTime b.maskTime b.dynamicMaskTime) := by
  simp only [lossBuilder]
  rw [foldl_unrollStep_trace]
  rfl

/-- The representation the initial phase hands to the unroll, explicitly:
one representation row per observation.  (It does not depend on the initial
targets.) -/
theorem initialPhase_rep (ce : List ℚ → List ℚ → ℚ) (sqrtQ : ℚ → ℚ)
    (net : NetworkModel) (images : List (List ℚ)) (ti : List (ℚ × ℚ × List ℚ)) :
    (initialPhase ce sqrtQ net images ti).1 =
      (images.map net.initF).map (fun z => z.1) := by
  simp only [initialPhase]

/-- The two-sample, one-unroll-step batch of the C1 counterexample: sample
0 is rejected by the only target mask but selected by the dynamic mask. -/
def cb1A : MZBatch where
  imageBatch := [[1], [2]]
  targetsInit := [(0, 0, []), (0, 0, [])]
  targetsTime := [[(0, 10, [1]), (0, 20, [1])]]
  actionsTime := [[0]]
  maskTime := [[false, true]]
  dynamicMaskTime := [[true, false]]

/-- `cb1A` with sample 0's observation changed from `[1]` to `[5]`. -/
def cb1B : MZBatch := { cb1A with imageBatch := [[5], [2]] }

/-- `cb1A` with the dynamic mask also rejecting sample 0 (the amended
claim's hypothesis). -/
def cb1C : MZBatch := { cb1A with dynamicMaskTime := [[false, true]] }

/-- `cb1C` with sample 0's observation changed from `[1]` to `[5]`. -/
def cb1D : MZBatch := { cb1C with imageBatch := [[5], [2]] }

/-- C1, counterexample: in `cb1A` sample 0 has `mask_time[k][0] = False`
for every unroll step `k`, yet its data does contribute to the recurrent
step's loss term: the dynamic mask selects sample 0, so its representation
row is the one fed to the recurrent model, and (with the degenerate
zero cross-entropy, so that only the concretely embedded reward MSE is in
play) changing sample 0's observation from `[1]` to `[5]` changes the
step's trace entry from `(1-20)^2 = 361` to `(5-20)^2 = 225`.  The
prediction is paired with sample 1's reward target — the misalignment of
claim C9 — so "contributes nothing" fails as stated. -/
theorem spec_C1_counterexample :
    (∀ m ∈ cb1A.maskTime, m.getD 0 true = false) ∧
    cb1B.imageBatch = cb1A.imageBatch.set 0 [5] ∧
    cb1B.targetsInit = cb1A.targetsInit ∧
    cb1B.targetsTime = cb1A.targetsTime ∧
    cb1B.actionsTime = cb1A.actionsTime ∧
    cb1B.maskTime = cb1A.maskTime ∧
    cb1B.dynamicMaskTime = cb1A.dynamicMaskTime ∧
    (lossBuilder ceZero sqId condKeep testNet cb1A).2.getD 2 0 = 361 ∧
    (lossBuilder ceZero sqId condKeep testNet cb1B).2.getD 2 0 = 225 ∧
    (lossBuilder ceZero sqId condKeep testNet cb1A).2.getD 2 0 ≠
      (lossBuilder ceZero sqId condKeep testNet cb1B).2.getD 2 0 := by
  with_unfolding_all decide

/-- C1, amended: if sample `i` is rejected by every step's target mask AND
by the first dynamic mask (after which it no longer occupies a row of the
carried representation), then varying sample `i`'s observation, initial
target tuple and per-step target tuples leaves every recurrent-step trace
entry unchanged: the sample contributes only to the two initial-step loss
terms.  The extra dynamic-mask hypothesis is forced by
`spec_C1_counterexample`. -/
theorem spec_C1_amended (ce : List ℚ → List ℚ → ℚ) (sqrtQ : ℚ → ℚ)
    (condF : List ℚ → ℕ → List ℚ) (net : NetworkModel) (b₁ b₂ : MZBatch) (i : ℕ)
    (himg : ∃ o, b₂.imageBatch = b₁.imageBatch.set i o)
    (hti : ∃ y, b₂.targetsInit = b₁.targetsInit.set i y)
    (htt : List.Forall₂ (fun t₂ t₁ => ∃ v, t₂ = t₁.set i v)
      b₂.targetsTime b₁.targetsTime)
    (hact : b₂.actionsTime = b₁.actionsTime)
    (hmaskEq : b₂.maskTime = b₁.maskTime)
    (hdynEq : b₂.dynamicMaskTime = b₁.dynamicMaskTime)
    (hmask : ∀ m ∈ b₁.maskTime, m.getD i true = false)
    (hdyn : ∀ d ∈ b₁.dynamicMaskTime.take 1, d.getD i true = false) :
    (lossBuilder ce sqrtQ condF net b₂).2.drop 2 =
      (lossBuilder ce sqrtQ condF net b₁).2.drop 2 := by
  obtain ⟨o, ho⟩ := himg
  obtain ⟨y, hy⟩ := hti
  rw [lossBuilder_drop2, lossBuilder_drop2, ho, hy, hact, hmaskEq, hdynEq,
    initialPhase_rep, initialPhase_rep, List.map_set, List.map_set]
  exact unrollTrace_sampleVariation ce sqrtQ condF net b₁.actionsTime.length i
    _ _ b₁.actionsTime b₂.targetsTime b₁.targetsTime b₁.maskTime
    b₁.dynamicMaskTime htt hmask hdyn

/-- C1 witness: on `cb1C`/`cb1D` (both masks reject sample 0) the recurrent
trace entries coincide although sample 0's observation differs. -/
theorem spec_C1_witness :
    (∀ m ∈ cb1C.maskTime, m.getD 0 true = false) ∧
    (lossBuilder ceZero sqId condKeep testNet cb1D).2.drop 2 =
      (lossBuilder ceZero sqId condKeep testNet cb1C).2.drop 2 :=
  ⟨by decide, spec_C1_amended ceZero sqId condKeep testNet cb1C cb1D 0
    ⟨[5], rfl⟩ ⟨(0, 0, []), rfl⟩
    (List.Forall₂.cons ⟨(0, 10, [1]), rfl⟩ List.Forall₂.nil)
    rfl rfl rfl (by decide) (by decide)⟩
